import Mathlib

/-!
Shallow embedding of the core execution engine of the sales-agent framework:
the Unit-of-Work Executor (`BaseAgent`, src/unnamed/part_001) and the Step
Sequencer (`AgentWorkflow`, src/packages/core/src/index.ts), together with the
shared data model (src/packages/core/src/types.ts).

Modelling conventions:
- JavaScript exceptions are `Except JsError`; a thrown value is either an
  `AgentError` (the framework's typed error, carrying a symbolic `code`) or a
  plain `Error`/value (modelled by its message string).
- `null`/`undefined` are modelled by `Option.none` wherever the source tests
  for them (`validateInput`, a handler's return value, the optional
  `maxDelay`).
- Asynchrony is erased: handlers, conditions and the work function are
  pure functions (indexed by attempt number or context) into `Except`.  The `Promise.race`
  timeout is a nondeterministic scheduling outcome, passed in as an explicit
  `Race` parameter (`work` = the work settles first, `timer` = the timeout
  rejection settles first), since real time is outside the embedding.
- Wall-clock fields (`startedAt`, `completedAt`, `duration`, `executionTime`,
  `timestamp`) and the random run ids are real-time/randomness and are omitted
  from the embedded records; no claim in scope depends on them.
- Event emission is tracked as the ordered list of emitted event types;
  listeners are modelled explicitly (they may throw) where a claim is about
  listener behaviour, and instantiated to the empty list elsewhere.
- Call counts of the work function and per-step handler invocations are
  tracked as ghost output so that "is never invoked" claims are statable.
-/

/-- The framework's typed error (`AgentError` in types.ts): a message plus a
symbolic code.  The `details` payload is opaque and not claim-relevant, so it
is omitted. -/
structure AgentError where
  message : String
  code : String
deriving DecidableEq, Repr

/-- A thrown JavaScript value: either an `AgentError` instance or any other
error/value, modelled by the message string that `String(error)` /
`error.message` would produce. -/
inductive JsError where
  | agent (e : AgentError)
  | plain (message : String)
deriving DecidableEq, Repr

/-- `normalizeError` from BaseAgent: an `AgentError` passes through; anything
else is wrapped as `UNKNOWN_ERROR` (the original error is kept in `details`,
which the embedding omits). -/
def normalizeError : JsError → AgentError
  | .agent e => e
  | .plain m => ⟨m, "UNKNOWN_ERROR"⟩

/-- Backoff strategy of `RetryConfig` (types.ts): `'linear' | 'exponential'`. -/
inductive Backoff where
  | linear
  | exponential
deriving DecidableEq, Repr

/-- `RetryConfig` from types.ts.  `backoff` and `maxDelay` are optional in the
source (`backoff?:`, `maxDelay?:`); delays are nonnegative millisecond
counts. -/
structure RetryConfig where
  maxAttempts : Nat
  delay : Nat
  backoff : Option Backoff
  maxDelay : Option Nat
deriving DecidableEq, Repr

/-- JavaScript `x || y` on an optional number: `undefined` and `0` are falsy,
so both select `y`.  This models the source expression
`retry.maxDelay || delay`. -/
def jsOrNat : Option Nat → Nat → Nat
  | some v, d => if v = 0 then d else v
  | none, d => d

/-- `BaseAgent.calculateRetryDelay`: for `'exponential'` backoff the delay is
`retry.delay * 2^(attempt-1)` clamped by `Math.min(delay, retry.maxDelay ||
delay)`; every other backoff value returns `retry.delay` unchanged. -/
def calculateRetryDelay (attempt : Nat) (retry : RetryConfig) : Nat :=
  match retry.backoff with
  | some .exponential =>
    let d := retry.delay * 2 ^ (attempt - 1)
    min d (jsOrNat retry.maxDelay d)
  | _ => retry.delay

/-- Outcome of `BaseAgent.executeWithRetry`: the settled result, the number of
times the work function was invoked (ghost), and the sequence of computed
sleep delays (ghost, one per inter-attempt sleep). -/
structure RetryOutcome (β : Type) where
  result : Except JsError β
  calls : Nat
  sleeps : List Nat
deriving Repr

/-- The loop body of `BaseAgent.executeWithRetry`, structurally recursive on
the number of remaining loop iterations (`fuel`); `attempt` is the source's
1-based loop counter and `lastError` the `lastError` variable.  The work
function is indexed by the attempt number so that distinct attempts may
behave differently (in the source, successive calls of `this.run(context)`
may observe different external state). -/
def retryGo (run : Nat → Except JsError β) (retry : RetryConfig) :
    Nat → Nat → Option JsError → RetryOutcome β
  | 0, _, lastError =>
    ⟨.error (lastError.getD (.agent ⟨"Execution failed", "EXECUTION_FAILED"⟩)), 0, []⟩
  | fuel + 1, attempt, _ =>
    match run attempt with
    | .ok v => ⟨.ok v, 1, []⟩
    | .error e =>
      let rest := retryGo run retry fuel (attempt + 1) (some e)
      ⟨rest.result, rest.calls + 1,
        (if attempt < retry.maxAttempts then [calculateRetryDelay attempt retry] else [])
          ++ rest.sleeps⟩

/-- `BaseAgent.executeWithRetry`: `for (attempt = 1; attempt <= maxAttempts;
attempt++)` around the work function; on exhaustion it throws the last
observed error, or a generic `EXECUTION_FAILED` if none was captured. -/
def executeWithRetry (run : Nat → Except JsError β) (retry : RetryConfig) : RetryOutcome β :=
  retryGo run retry retry.maxAttempts 1 none

/-- The closed enumeration of lifecycle event types (types.ts `AgentEvent`). -/
inductive EventType where
  | agentStart
  | agentComplete
  | agentError
  | stepStart
  | stepComplete
  | stepError
  | workflowStart
  | workflowComplete
  | workflowError
deriving DecidableEq, Repr

/-- An event listener registered through `onEvent`; it may throw. -/
def Listener : Type := EventType → Except JsError Unit

/-- eventemitter3's `emit`: listeners are called synchronously in registration
order; a throwing listener propagates out of `emit` (eventemitter3 installs no
try/catch around listener invocation), so later listeners are skipped. -/
def emitAll (listeners : List Listener) (e : EventType) : Except JsError Unit :=
  match listeners with
  | [] => .ok ()
  | l :: rest =>
    match l e with
    | .ok _ => emitAll rest e
    | .error err => .error err

/-- `AgentResult` from types.ts (wall-clock `executionTime` and the `metadata`
bag omitted; no claim in scope depends on them). -/
structure AgentResult (β : Type) where
  success : Bool
  data : Option β
  error : Option AgentError
deriving DecidableEq, Repr

/-- `BaseAgent.validateInput`: rejects `null`/`undefined` with an
`INVALID_INPUT` typed error. -/
def validateInput (input : Option ι) : Except JsError Unit :=
  match input with
  | none => .error (.agent ⟨"Input cannot be null or undefined", "INVALID_INPUT"⟩)
  | some _ => .ok ()

/-- Which side of the `Promise.race` in `executeWithTimeout` settles first:
the wrapped work or the timeout rejection.  A free parameter, since the
embedding has no real time. -/
inductive Race where
  | work
  | timer
deriving DecidableEq, Repr

namespace BaseAgent

/-- The `catch` block of `BaseAgent.execute`: normalize the caught error,
build the failure `AgentResult`, emit `agent:error` (a throwing listener at
this point escapes `execute` itself), and return the failure result.
`evs` is the event log so far and `calls` the ghost work-function call
count. -/
def agentCatch (listeners : List Listener) (e : JsError) (evs : List EventType)
    (calls : Nat) : Except JsError (AgentResult β) × List EventType × Nat :=
  let res : AgentResult β := ⟨false, none, some (normalizeError e)⟩
  match emitAll listeners .agentError with
  | .ok _ => (.ok res, evs ++ [.agentError], calls)
  | .error e2 => (.error e2, evs ++ [.agentError], calls)

/-- `BaseAgent.execute`.  Structure mirrored from the source: lazy
`initialize()` (which emits `agent:start`) outside the try block; then inside
the try block `validateInput`, the timeout race around `executeWithRetry`,
the success result and the `agent:complete` emission; the catch block handles
every throw from inside the try (including a listener throwing during the
`agent:complete` emission).  Output: the call's outcome (`.error` = an
exception propagated to the caller), the emitted event types in order, and
the ghost work-function call count. -/
def execute (initialized : Bool) (listeners : List Listener) (input : Option ι)
    (run : Nat → Except JsError β) (retry : RetryConfig) (race : Race) :
    Except JsError (AgentResult β) × List EventType × Nat :=
  let initStep : Except JsError Unit × List EventType :=
    if initialized then (.ok (), [])
    else (emitAll listeners .agentStart, [.agentStart])
  match initStep with
  | (.error e, evs) => (.error e, evs, 0)
  | (.ok _, evs) =>
    match validateInput input with
    | .error e => agentCatch listeners e evs 0
    | .ok _ =>
      let out := executeWithRetry run retry
      match race with
      | .timer => agentCatch listeners (.agent ⟨"Execution timeout", "TIMEOUT"⟩) evs out.calls
      | .work =>
        match out.result with
        | .error e => agentCatch listeners e evs out.calls
        | .ok v =>
          let res : AgentResult β := ⟨true, some v, none⟩
          match emitAll listeners .agentComplete with
          | .ok _ => (.ok res, evs ++ [.agentComplete], out.calls)
          | .error e2 => agentCatch listeners e2 (evs ++ [.agentComplete]) out.calls

end BaseAgent

/-!
## Store model of `BaseAgent.execute`

A second view of the same source function with an explicit heap, to make
aliasing and in-place mutation of the caller's `input` object statable.  The
heap is a list of integer cells; an object reference is an index into it.
The context construction `data: input` in the source stores the reference
itself (no copy is taken), which the model reflects in `buildCtxS`.  The work
function receives the context and the heap and may return an updated heap (as
any JavaScript function reachable from `this.run(context)` may mutate objects
it can reach).  Initialization and event emission touch no heap object and
are elided here; on a lost timeout race the abandoned work keeps running (no
cancellation), so its heap effects still happen.
-/

/-- A heap of mutable integer cells; an object reference is an index. -/
abbrev Store := List Int

/-- The execution-context slice relevant to the heap: the `data` field holds
an object reference. -/
structure CtxS where
  dataRef : Nat
deriving DecidableEq, Repr

/-- The context construction of `BaseAgent.execute`: `data: input` stores the
caller's reference itself — no copy of the input object is made. -/
def buildCtxS (input : Nat) : CtxS := ⟨input⟩

/-- The retry loop of `BaseAgent.executeWithRetry`, threading the heap through
the successive work-function invocations. -/
def retryGoS (runS : CtxS → Store → Except JsError Int × Store) (ctx : CtxS) :
    Nat → Option JsError → Store → Except JsError Int × Store
  | 0, lastError, st =>
    (.error (lastError.getD (.agent ⟨"Execution failed", "EXECUTION_FAILED"⟩)), st)
  | fuel + 1, _, st =>
    match runS ctx st with
    | (.ok v, st2) => (.ok v, st2)
    | (.error e, st2) => retryGoS runS ctx fuel (some e) st2

/-- `BaseAgent.execute` over the heap model: validation, context construction
(`data: input`, aliasing), the retry loop, and the timeout race.  Returns the
`AgentResult` and the heap as the caller can observe it after the run's work
has settled. -/
def executeS (input : Option Nat) (runS : CtxS → Store → Except JsError Int × Store)
    (retry : RetryConfig) (race : Race) (st : Store) : AgentResult Int × Store :=
  match input with
  | none => (⟨false, none, some ⟨"Input cannot be null or undefined", "INVALID_INPUT"⟩⟩, st)
  | some r =>
    let ctx := buildCtxS r
    let (res, st2) := retryGoS runS ctx retry.maxAttempts none st
    match race with
    | .timer => (⟨false, none, some ⟨"Execution timeout", "TIMEOUT"⟩⟩, st2)
    | .work =>
      match res with
      | .ok v => (⟨true, some v, none⟩, st2)
      | .error e => (⟨false, none, some (normalizeError e)⟩, st2)

/-!
## Step Sequencer (`AgentWorkflow`)
-/

/-- The workflow-level failure strategy (`onError` in `WorkflowConfig`):
`'stop' | 'continue' | 'rollback'`.  `cont` models `'continue'`. -/
inductive ErrStrategy where
  | stop
  | cont
  | rollback
deriving DecidableEq, Repr

/-- The caller-supplied `WorkflowConfig` before the constructor merges
defaults (`timeout?:`, `onError?:` optional). -/
structure WorkflowOptions where
  name : String
  timeout : Option Nat
  onError : Option ErrStrategy
deriving DecidableEq, Repr

/-- The effective configuration held by an `AgentWorkflow` instance. -/
structure WorkflowConfig where
  name : String
  timeout : Nat
  onError : ErrStrategy
deriving DecidableEq, Repr

/-- The `AgentWorkflow` constructor's default merge:
`{ timeout: 300000, onError: 'stop', ...config }`. -/
def mkWorkflowConfig (o : WorkflowOptions) : WorkflowConfig :=
  ⟨o.name, o.timeout.getD 300000, o.onError.getD .stop⟩

/-- `StepResult` from types.ts (wall-clock fields omitted).  `data = none`
models a `null`/absent payload; a skipped step records `data: null`. -/
structure StepRes (α : Type) where
  step : String
  success : Bool
  data : Option α
  error : Option JsError
deriving DecidableEq, Repr

/-- The `AgentContext` slice threaded between steps: the current `data`
payload and the ordered step history.  (`id`, `metadata`, `timestamp` are
inert for every claim in scope and omitted.) -/
structure WCtx (α : Type) where
  data : α
  history : List (StepRes α)
deriving DecidableEq, Repr

/-- `WorkflowStep` from types.ts: a named handler with an optional condition
and an optional per-step error hook.  A handler returning `none` models a
`null`/`undefined` return (a no-op for `context.data`); conditions and hooks
may throw. -/
structure WStep (α : Type) where
  name : String
  handler : WCtx α → Except JsError (Option α)
  condition : Option (WCtx α → Except JsError Bool)
  onError : Option (JsError → WCtx α → Except JsError Unit)

/-- Output of one `executeStep` call: the `StepResult`, the (possibly
updated) context, the event types emitted during the step, whether the
handler was invoked (ghost), and the console log lines produced (ghost). -/
structure StepOut (α : Type) where
  res : StepRes α
  ctx : WCtx α
  events : List EventType
  invoked : Bool
  logs : List String
deriving Repr

/-- The `catch` block of `AgentWorkflow.executeStep`: run the step's
`onError` hook if present (its own failure is swallowed and logged), build
the failing `StepResult`, emit `step:error`.  The context is left as it was.
`invoked` records whether the failure came from the handler (true) or from a
throwing condition (false). -/
def stepFailure (s : WStep α) (ctx : WCtx α) (e : JsError) (invoked : Bool) : StepOut α :=
  let logs :=
    match s.onError with
    | some hook =>
      match hook e ctx with
      | .ok _ => []
      | .error _ => ["Error handler failed:"]
    | none => []
  ⟨⟨s.name, false, none, some e⟩, ctx, [.stepStart, .stepError], invoked, logs⟩

/-- The handler branch of `AgentWorkflow.executeStep`: invoke the handler; a
non-null result replaces `context.data` wholesale; emit `step:complete`; a
throw goes to the catch block. -/
def runHandlerStep (s : WStep α) (ctx : WCtx α) : StepOut α :=
  match s.handler ctx with
  | .ok r =>
    let ctx2 := match r with
      | some v => { ctx with data := v }
      | none => ctx
    ⟨⟨s.name, true, r, none⟩, ctx2, [.stepStart, .stepComplete], true, []⟩
  | .error e => stepFailure s ctx e true

/-- `AgentWorkflow.executeStep`: emit `step:start`; evaluate the condition if
present — on `false` return the skip `StepResult` (`success: true`,
`data: null`, context untouched, handler not invoked) directly, with no
further event; otherwise run the handler branch; any throw (condition or
handler) lands in the catch block. -/
def executeStep (s : WStep α) (ctx : WCtx α) : StepOut α :=
  match s.condition with
  | some c =>
    match c ctx with
    | .ok false => ⟨⟨s.name, true, none, none⟩, ctx, [.stepStart], false, []⟩
    | .ok true => runHandlerStep s ctx
    | .error e => stepFailure s ctx e false
  | none => runHandlerStep s ctx

/-- `AgentWorkflow.rollback`: not implemented; it only logs a warning. -/
def rollbackLogs : List String := ["Rollback not implemented yet"]

/-- The error thrown by `throw stepResult.error` in the step loop: the failing
`StepResult` always carries its error; the `getD` default mirrors JavaScript
turning a thrown `undefined` into `Error("undefined")` and is unreachable. -/
def thrownOf (res : StepRes α) : JsError :=
  res.error.getD (.plain "undefined")

/-- Accumulated outcome of the step loop inside `AgentWorkflow.execute`:
the pushed `StepResult`s, the final context, the events emitted by the steps,
the error the loop threw (`none` = ran to completion), the names of the steps
whose handler was invoked (ghost), and console log lines (ghost). -/
structure LoopOut (α : Type) where
  results : List (StepRes α)
  ctx : WCtx α
  events : List EventType
  err : Option JsError
  invoked : List String
  logs : List String
deriving Repr

/-- The `for (const step of this.steps)` loop of `AgentWorkflow.execute`:
execute each step, push its result onto both the results array and
`context.history`, then apply the failure strategy to a failing result —
`stop` rethrows the step's error, `rollback` first calls the no-op rollback
(a logged warning) and rethrows, `continue` keeps going. -/
def runSteps (strategy : ErrStrategy) : List (WStep α) → WCtx α → LoopOut α
  | [], ctx => ⟨[], ctx, [], none, [], []⟩
  | s :: rest, ctx =>
    let o := executeStep s ctx
    let ctx2 := { o.ctx with history := o.ctx.history ++ [o.res] }
    let inv := if o.invoked then [s.name] else []
    if o.res.success then
      let t := runSteps strategy rest ctx2
      ⟨o.res :: t.results, t.ctx, o.events ++ t.events, t.err, inv ++ t.invoked,
        o.logs ++ t.logs⟩
    else
      match strategy with
      | .stop => ⟨[o.res], ctx2, o.events, some (thrownOf o.res), inv, o.logs⟩
      | .rollback =>
        ⟨[o.res], ctx2, o.events, some (thrownOf o.res), inv, o.logs ++ rollbackLogs⟩
      | .cont =>
        let t := runSteps strategy rest ctx2
        ⟨o.res :: t.results, t.ctx, o.events ++ t.events, t.err, inv ++ t.invoked,
          o.logs ++ t.logs⟩

/-- `WorkflowResult` (AgentWorkflow.ts; wall-clock `executionTime` omitted).
The success branch sets `data` from `context.data`; the failure branch leaves
it absent.  `error` is the raw thrown error — the workflow does not normalize
it to an `AgentError`. -/
structure WorkflowResult (α : Type) where
  success : Bool
  data : Option α
  steps : List (StepRes α)
  error : Option JsError
deriving DecidableEq, Repr

/-- One `AgentWorkflow.execute` run: the returned `WorkflowResult`, the event
types emitted in order, and the loop trace (ghost). -/
structure WRun (α : Type) where
  result : WorkflowResult α
  events : List EventType
  trace : LoopOut α
deriving Repr

namespace AgentWorkflow

/-- `AgentWorkflow.execute`: seed a fresh context from the input, emit
`workflow:start`, run the step loop under the timeout race, and convert the
outcome in try/catch style — completion yields `success: true` with
`context.data` and `workflow:complete`; a thrown step error or a lost race
yields `success: false` with the error, the results pushed so far, and
`workflow:error`.  `race = true` means the timeout rejection settled first,
after `cut` steps had been pushed; the abandoned loop keeps running (no
cancellation), so its remaining step events still fire and are logged before
the terminal event. -/
def execute (cfg : WorkflowConfig) (steps : List (WStep α)) (input : α)
    (race : Bool) (cut : Nat) : WRun α :=
  let ctx0 : WCtx α := ⟨input, []⟩
  let t := runSteps cfg.onError steps ctx0
  if race then
    { result := ⟨false, none, t.results.take cut,
        some (.agent ⟨"Workflow timeout", "TIMEOUT"⟩)⟩,
      events := .workflowStart :: t.events ++ [.workflowError],
      trace := t }
  else
    match t.err with
    | none =>
      { result := ⟨true, some t.ctx.data, t.results, none⟩,
        events := .workflowStart :: t.events ++ [.workflowComplete],
        trace := t }
    | some e =>
      { result := ⟨false, none, t.results, some e⟩,
        events := .workflowStart :: t.events ++ [.workflowError],
        trace := t }

end AgentWorkflow

/-!
## Helper lemmas
-/

/-- A call outcome that is a returned failure result (not a propagated
exception): `success: false` with an error attached. -/
def isFailureOutcome (x : Except JsError (AgentResult β)) : Prop :=
  ∃ a, x = .ok a ∧ a.success = false ∧ a.error.isSome = true

theorem emitAll_nil (e : EventType) : emitAll [] e = .ok () := rfl

theorem agentCatch_nil (e : JsError) (evs : List EventType) (calls : Nat) :
    BaseAgent.agentCatch (β := β) [] e evs calls =
      (.ok ⟨false, none, some (normalizeError e)⟩, evs ++ [.agentError], calls) := rfl

/-- If every attempt of the work function throws, the retry loop settles on an
error (for any fuel, attempt counter and captured error). -/
theorem retryGo_allFail_error (run : Nat → Except JsError β) (retry : RetryConfig)
    (h : ∀ k, ∃ e, run k = .error e) :
    ∀ fuel attempt last, ∃ e2, (retryGo run retry fuel attempt last).result = .error e2 := by
  intro fuel
  induction fuel with
  | zero =>
    intro attempt last
    exact ⟨_, rfl⟩
  | succ n ih =>
    intro attempt last
    obtain ⟨e, he⟩ := h attempt
    simpa [retryGo, he] using ih (attempt + 1) (some e)

/-- One-step unfolding of the retry loop on a failing attempt, with the
remaining fuel kept abstract. -/
theorem retryGo_step_err (run : Nat → Except JsError β) (retry : RetryConfig)
    (fuel attempt : Nat) (last : Option JsError) (e : JsError)
    (he : run attempt = .error e) :
    (retryGo run retry (fuel + 1) attempt last).result =
      (retryGo run retry fuel (attempt + 1) (some e)).result ∧
    (retryGo run retry (fuel + 1) attempt last).calls =
      (retryGo run retry fuel (attempt + 1) (some e)).calls + 1 := by
  constructor <;> simp [retryGo, he]

/-- One-step unfolding of the retry loop on a succeeding attempt. -/
theorem retryGo_step_ok (run : Nat → Except JsError β) (retry : RetryConfig)
    (fuel attempt : Nat) (last : Option JsError) (v : β)
    (hv : run attempt = .ok v) :
    (retryGo run retry (fuel + 1) attempt last).result = .ok v ∧
    (retryGo run retry (fuel + 1) attempt last).calls = 1 := by
  constructor <;> simp [retryGo, hv]

theorem retryGo_zero (run : Nat → Except JsError β) (retry : RetryConfig)
    (attempt : Nat) (last : Option JsError) :
    retryGo run retry 0 attempt last =
      ⟨.error (last.getD (.agent ⟨"Execution failed", "EXECUTION_FAILED"⟩)), 0, []⟩ := rfl

/-- Exact shape of the retry loop when every attempt in range throws: the work
function is called once per loop iteration, and the settled error is the last
attempt's error. -/
theorem retryGo_allFail_spec (run : Nat → Except JsError β) (retry : RetryConfig) :
    ∀ fuel, 1 ≤ fuel → ∀ attempt last,
      (∀ k, attempt ≤ k → k < attempt + fuel → ∃ e, run k = .error e) →
      (retryGo run retry fuel attempt last).calls = fuel ∧
      ∀ e, run (attempt + fuel - 1) = .error e →
        (retryGo run retry fuel attempt last).result = .error e := by
  intro fuel
  induction fuel with
  | zero => omega
  | succ n ih =>
    intro _ attempt last h
    obtain ⟨e, he⟩ := h attempt (le_refl _) (by omega)
    obtain ⟨hres, hcalls⟩ := retryGo_step_err run retry n attempt last e he
    cases n with
    | zero =>
      refine ⟨by rw [hcalls, retryGo_zero], ?_⟩
      intro e2 he2
      have hidx : attempt + 1 - 1 = attempt := by omega
      rw [hidx] at he2
      have : e2 = e := by
        have := he2.symm.trans he
        exact (Except.error.injEq _ _ ▸ this)
      subst this
      rw [hres, retryGo_zero]
      rfl
    | succ m =>
      have hrest := ih (by omega) (attempt + 1) (some e)
        (fun k hk1 hk2 => h k (by omega) (by omega))
      refine ⟨by rw [hcalls, hrest.1], ?_⟩
      intro e2 he2
      have hidx : attempt + (m + 1 + 1) - 1 = attempt + 1 + (m + 1) - 1 := by omega
      rw [hidx] at he2
      rw [hres, hrest.2 e2 he2]

/-- Exact shape of the retry loop when attempt `k` is the first success: the
work function is called `k - attempt + 1` times and the loop settles on the
success value. -/
theorem retryGo_firstSuccess_spec (run : Nat → Except JsError β) (retry : RetryConfig) :
    ∀ fuel attempt last k v, attempt ≤ k → k < attempt + fuel → run k = .ok v →
      (∀ j, attempt ≤ j → j < k → ∃ e, run j = .error e) →
      (retryGo run retry fuel attempt last).calls = k - attempt + 1 ∧
      (retryGo run retry fuel attempt last).result = .ok v := by
  intro fuel
  induction fuel with
  | zero => omega
  | succ n ih =>
    intro attempt last k v hk1 hk2 hok hprev
    rcases Nat.eq_or_lt_of_le hk1 with heq | hlt
    · subst heq
      obtain ⟨hres, hcalls⟩ := retryGo_step_ok run retry n attempt last v hok
      exact ⟨by rw [hcalls]; omega, hres⟩
    · obtain ⟨e, he⟩ := hprev attempt (le_refl _) hlt
      obtain ⟨hres, hcalls⟩ := retryGo_step_err run retry n attempt last e he
      have hrest := ih (attempt + 1) (some e) k v (by omega) (by omega) hok
        (fun j hj1 hj2 => hprev j (by omega) hj2)
      refine ⟨by rw [hcalls, hrest.1]; omega, by rw [hres, hrest.2]⟩

theorem stepFailure_spec (s : WStep α) (ctx : WCtx α) (e : JsError) (inv : Bool) :
    (stepFailure s ctx e inv).res = ⟨s.name, false, none, some e⟩ ∧
    (stepFailure s ctx e inv).ctx = ctx ∧
    (stepFailure s ctx e inv).events = [.stepStart, .stepError] ∧
    (stepFailure s ctx e inv).invoked = inv :=
  ⟨rfl, rfl, rfl, rfl⟩

/-- A failing `StepResult` out of `executeStep` always carries its error, and
that error is exactly what the loop's `throw stepResult.error` rethrows. -/
theorem executeStep_fail_error (s : WStep α) (ctx : WCtx α)
    (h : (executeStep s ctx).res.success = false) :
    (executeStep s ctx).res.error = some (thrownOf (executeStep s ctx).res) := by
  rcases hcond : s.condition with _ | c
  · rcases hh : s.handler ctx with e | r <;>
      simp_all [executeStep, runHandlerStep, stepFailure, thrownOf, hcond, hh]
  · rcases hc : c ctx with e | b
    · simp_all [executeStep, stepFailure, thrownOf, hcond, hc]
    · cases b
      · simp_all [executeStep, hcond, hc]
      · rcases hh : s.handler ctx with e | r <;>
          simp_all [executeStep, runHandlerStep, stepFailure, thrownOf, hcond, hc, hh]

/-- A step that fails, or whose handler is never invoked (a skip), leaves the
context — in particular `context.data` — untouched. -/
theorem executeStep_no_mutate (s : WStep α) (ctx : WCtx α)
    (h : (executeStep s ctx).res.success = false ∨ (executeStep s ctx).invoked = false) :
    (executeStep s ctx).ctx = ctx := by
  rcases hcond : s.condition with _ | c
  · rcases hh : s.handler ctx with e | r
    · simp_all [executeStep, runHandlerStep, stepFailure, hcond, hh]
    · simp_all [executeStep, runHandlerStep, hcond, hh]
  · rcases hc : c ctx with e | b
    · simp_all [executeStep, stepFailure, hcond, hc]
    · cases b
      · simp_all [executeStep, hcond, hc]
      · rcases hh : s.handler ctx with e | r
        · simp_all [executeStep, runHandlerStep, stepFailure, hcond, hc, hh]
        · simp_all [executeStep, runHandlerStep, hcond, hc, hh]

/-- The context after the loop pushes a `StepResult` onto
`context.history`. -/
def pushCtx (o : StepOut α) : WCtx α :=
  { o.ctx with history := o.ctx.history ++ [o.res] }

theorem runSteps_cons_ok (strategy : ErrStrategy) (s : WStep α) (rest : List (WStep α))
    (ctx : WCtx α) (h : (executeStep s ctx).res.success = true) :
    runSteps strategy (s :: rest) ctx =
      { results := (executeStep s ctx).res ::
          (runSteps strategy rest (pushCtx (executeStep s ctx))).results,
        ctx := (runSteps strategy rest (pushCtx (executeStep s ctx))).ctx,
        events := (executeStep s ctx).events ++
          (runSteps strategy rest (pushCtx (executeStep s ctx))).events,
        err := (runSteps strategy rest (pushCtx (executeStep s ctx))).err,
        invoked := (if (executeStep s ctx).invoked then [s.name] else []) ++
          (runSteps strategy rest (pushCtx (executeStep s ctx))).invoked,
        logs := (executeStep s ctx).logs ++
          (runSteps strategy rest (pushCtx (executeStep s ctx))).logs } := by
  simp [runSteps, pushCtx, h]

theorem runSteps_cons_fail_stop (s : WStep α) (rest : List (WStep α)) (ctx : WCtx α)
    (h : (executeStep s ctx).res.success = false) :
    runSteps .stop (s :: rest) ctx =
      { results := [(executeStep s ctx).res],
        ctx := pushCtx (executeStep s ctx),
        events := (executeStep s ctx).events,
        err := some (thrownOf (executeStep s ctx).res),
        invoked := if (executeStep s ctx).invoked then [s.name] else [],
        logs := (executeStep s ctx).logs } := by
  simp [runSteps, pushCtx, h]

theorem runSteps_cons_fail_rollback (s : WStep α) (rest : List (WStep α)) (ctx : WCtx α)
    (h : (executeStep s ctx).res.success = false) :
    runSteps .rollback (s :: rest) ctx =
      { results := [(executeStep s ctx).res],
        ctx := pushCtx (executeStep s ctx),
        events := (executeStep s ctx).events,
        err := some (thrownOf (executeStep s ctx).res),
        invoked := if (executeStep s ctx).invoked then [s.name] else [],
        logs := (executeStep s ctx).logs ++ rollbackLogs } := by
  simp [runSteps, pushCtx, h]

theorem runSteps_cons_fail_cont (s : WStep α) (rest : List (WStep α)) (ctx : WCtx α)
    (h : (executeStep s ctx).res.success = false) :
    runSteps .cont (s :: rest) ctx =
      { results := (executeStep s ctx).res ::
          (runSteps .cont rest (pushCtx (executeStep s ctx))).results,
        ctx := (runSteps .cont rest (pushCtx (executeStep s ctx))).ctx,
        events := (executeStep s ctx).events ++
          (runSteps .cont rest (pushCtx (executeStep s ctx))).events,
        err := (runSteps .cont rest (pushCtx (executeStep s ctx))).err,
        invoked := (if (executeStep s ctx).invoked then [s.name] else []) ++
          (runSteps .cont rest (pushCtx (executeStep s ctx))).invoked,
        logs := (executeStep s ctx).logs ++
          (runSteps .cont rest (pushCtx (executeStep s ctx))).logs } := by
  simp [runSteps, pushCtx, h]

theorem runSteps_nil (strategy : ErrStrategy) (ctx : WCtx α) :
    runSteps strategy ([] : List (WStep α)) ctx = ⟨[], ctx, [], none, [], []⟩ := rfl

/-- Under `onError: 'continue'` the step loop never throws and pushes exactly
one `StepResult` per registered step. -/
theorem runSteps_cont_total (steps : List (WStep α)) : ∀ ctx : WCtx α,
    (runSteps .cont steps ctx).err = none ∧
    (runSteps .cont steps ctx).results.length = steps.length := by
  induction steps with
  | nil => intro ctx; exact ⟨rfl, rfl⟩
  | cons s rest ih =>
    intro ctx
    cases hs : (executeStep s ctx).res.success with
    | true =>
      rw [runSteps_cons_ok .cont s rest ctx hs]
      simpa using ih (pushCtx (executeStep s ctx))
    | false =>
      rw [runSteps_cons_fail_cont s rest ctx hs]
      simpa using ih (pushCtx (executeStep s ctx))

/-- Under `onError: 'stop'`, if the loop throws `e` then the pushed results
are a row of successes followed by one failing result whose error is `e`, and
no more results than registered steps were produced. -/
theorem runSteps_stop_spec (steps : List (WStep α)) : ∀ (ctx : WCtx α) (e : JsError),
    (runSteps .stop steps ctx).err = some e →
    ∃ pre fin, (runSteps .stop steps ctx).results = pre ++ [fin] ∧
      (∀ r ∈ pre, r.success = true) ∧ fin.success = false ∧ fin.error = some e ∧
      (runSteps .stop steps ctx).results.length ≤ steps.length := by
  induction steps with
  | nil => intro ctx e h; simp [runSteps_nil] at h
  | cons s rest ih =>
    intro ctx e h
    cases hs : (executeStep s ctx).res.success with
    | true =>
      rw [runSteps_cons_ok .stop s rest ctx hs] at h ⊢
      simp only at h
      obtain ⟨pre, fin, hres, hpre, hfin, herr, hlen⟩ := ih _ e h
      refine ⟨(executeStep s ctx).res :: pre, fin, by simp [hres], ?_, hfin, herr, ?_⟩
      · intro r hr
        rcases List.mem_cons.mp hr with h1 | h1
        · exact h1 ▸ hs
        · exact hpre r h1
      · simpa using hlen
    | false =>
      rw [runSteps_cons_fail_stop s rest ctx hs] at h ⊢
      simp only at h
      have herr := executeStep_fail_error s ctx hs
      have hh : thrownOf (executeStep s ctx).res = e := Option.some.inj h
      exact ⟨[], (executeStep s ctx).res, by simp, by simp, hs, by rw [herr, hh], by simp⟩

/-- Every handler invocation recorded by the loop belongs to a step in the
evaluated slice (the first `results.length` registered steps). -/
theorem runSteps_invoked_names (strategy : ErrStrategy) (steps : List (WStep α)) :
    ∀ ctx : WCtx α, ∀ nm ∈ (runSteps strategy steps ctx).invoked,
      nm ∈ (steps.take (runSteps strategy steps ctx).results.length).map WStep.name := by
  induction steps with
  | nil => intro ctx nm hnm; simp [runSteps_nil] at hnm
  | cons s rest ih =>
    intro ctx nm hnm
    cases hs : (executeStep s ctx).res.success with
    | true =>
      rw [runSteps_cons_ok strategy s rest ctx hs] at hnm ⊢
      simp only [List.length_cons, List.take_succ_cons, List.map_cons, List.mem_cons] at hnm ⊢
      rcases List.mem_append.mp hnm with h1 | h1
      · left
        rcases hinv : (executeStep s ctx).invoked <;> simp [hinv] at h1
        exact h1
      · right; exact ih _ nm h1
    | false =>
      cases strategy with
      | stop =>
        rw [runSteps_cons_fail_stop s rest ctx hs] at hnm ⊢
        simp only [List.length_cons, List.length_nil, List.take_succ_cons, List.take_zero,
          List.map_cons, List.map_nil, List.mem_cons] at hnm ⊢
        left
        rcases hinv : (executeStep s ctx).invoked <;> simp [hinv] at hnm
        exact hnm
      | rollback =>
        rw [runSteps_cons_fail_rollback s rest ctx hs] at hnm ⊢
        simp only [List.length_cons, List.length_nil, List.take_succ_cons, List.take_zero,
          List.map_cons, List.map_nil, List.mem_cons] at hnm ⊢
        left
        rcases hinv : (executeStep s ctx).invoked <;> simp [hinv] at hnm
        exact hnm
      | cont =>
        rw [runSteps_cons_fail_cont s rest ctx hs] at hnm ⊢
        simp only [List.length_cons, List.take_succ_cons, List.map_cons, List.mem_cons] at hnm ⊢
        rcases List.mem_append.mp hnm with h1 | h1
        · left
          rcases hinv : (executeStep s ctx).invoked <;> simp [hinv] at h1
          exact h1
        · right; exact ih _ nm h1

/-- The step loop behaves identically under `'rollback'` and `'stop'` in every
observable component; the only difference is the extra rollback warning in the
console log, present exactly when the loop aborted. -/
theorem runSteps_rollback_stop_agree (steps : List (WStep α)) : ∀ ctx : WCtx α,
    (runSteps .rollback steps ctx).results = (runSteps .stop steps ctx).results ∧
    (runSteps .rollback steps ctx).ctx = (runSteps .stop steps ctx).ctx ∧
    (runSteps .rollback steps ctx).events = (runSteps .stop steps ctx).events ∧
    (runSteps .rollback steps ctx).err = (runSteps .stop steps ctx).err ∧
    (runSteps .rollback steps ctx).invoked = (runSteps .stop steps ctx).invoked ∧
    (runSteps .rollback steps ctx).logs = (runSteps .stop steps ctx).logs ++
      (if (runSteps .rollback steps ctx).err.isSome then rollbackLogs else []) := by
  induction steps with
  | nil => intro ctx; refine ⟨rfl, rfl, rfl, rfl, rfl, by simp [runSteps_nil]⟩
  | cons s rest ih =>
    intro ctx
    cases hs : (executeStep s ctx).res.success with
    | true =>
      rw [runSteps_cons_ok .rollback s rest ctx hs, runSteps_cons_ok .stop s rest ctx hs]
      obtain ⟨h1, h2, h3, h4, h5, h6⟩ := ih (pushCtx (executeStep s ctx))
      exact ⟨by rw [h1], by rw [h2], by rw [h3], by rw [h4], by rw [h5],
        by simp [h6, h4, List.append_assoc]⟩
    | false =>
      rw [runSteps_cons_fail_rollback s rest ctx hs, runSteps_cons_fail_stop s rest ctx hs]
      exact ⟨rfl, rfl, rfl, rfl, rfl, by simp⟩

/-- If the work function leaves the heap untouched, the whole retry loop
leaves the heap untouched: the engine's own code performs no heap write. -/
theorem retryGoS_preserve (runS : CtxS → Store → Except JsError Int × Store)
    (hpres : ∀ c st, (runS c st).2 = st) (ctx : CtxS) :
    ∀ (fuel : Nat) (last : Option JsError) (st : Store),
      (retryGoS runS ctx fuel last st).2 = st := by
  intro fuel
  induction fuel with
  | zero => intro last st; rfl
  | succ n ih =>
    intro last st
    rcases hr : runS ctx st with ⟨res, st2⟩
    have hst : st2 = st := by
      have := hpres ctx st
      rw [hr] at this
      exact this
    cases res with
    | ok v => simp [retryGoS, hr, hst]
    | error e => simp only [retryGoS, hr]; rw [ih, hst]

/-!
## Claim theorems
-/

theorem agentCatch_nil_isFailure (e : JsError) (evs : List EventType) (calls : Nat) :
    isFailureOutcome (BaseAgent.agentCatch (β := β) [] e evs calls).1 :=
  ⟨⟨false, none, some (normalizeError e)⟩, rfl, rfl, rfl⟩

/-- With no listeners, if the retry loop settles on an error the executor
lands in its catch block. -/
theorem executeBase_nil_work_err (init : Bool) (x : ι) (run : Nat → Except JsError β)
    (retry : RetryConfig) (e : JsError)
    (he : (executeWithRetry run retry).result = .error e) :
    BaseAgent.execute init [] (some x) run retry .work =
      BaseAgent.agentCatch [] e (if init then [] else [.agentStart])
        (executeWithRetry run retry).calls := by
  cases init <;> simp [BaseAgent.execute, validateInput, emitAll, he]

/-- With no listeners, if the retry loop settles on a value the executor
returns the success result. -/
theorem executeBase_nil_work_ok (init : Bool) (x : ι) (run : Nat → Except JsError β)
    (retry : RetryConfig) (v : β)
    (hv : (executeWithRetry run retry).result = .ok v) :
    BaseAgent.execute init [] (some x) run retry .work =
      (.ok ⟨true, some v, none⟩, (if init then [] else [.agentStart]) ++ [.agentComplete],
        (executeWithRetry run retry).calls) := by
  cases init <;> simp [BaseAgent.execute, validateInput, emitAll, hv]

/-- C1: for every input and every internal failure — validation failure,
work-function exception / retry exhaustion, timeout for the Unit-of-Work
Executor; a failing step under `'stop'`/`'rollback'` or a timeout for the
Step Sequencer — `execute` returns a result object with `success: false` and
an error attached, and (with well-behaved listeners) never propagates an
exception to the caller. -/
theorem C1_execute_never_raises :
    (∀ (ι β : Type) (init : Bool) (input : Option ι) (run : Nat → Except JsError β)
        (retry : RetryConfig) (race : Race),
      (∃ a, (BaseAgent.execute init [] input run retry race).1 = .ok a) ∧
      (input = none →
        isFailureOutcome (BaseAgent.execute init [] input run retry race).1) ∧
      (race = .timer →
        isFailureOutcome (BaseAgent.execute init [] input run retry race).1) ∧
      ((∀ k, ∃ e, run k = .error e) →
        isFailureOutcome (BaseAgent.execute init [] input run retry race).1)) ∧
    (∀ (α : Type) (cfg : WorkflowConfig) (steps : List (WStep α)) (input : α) (cut : Nat),
      ((AgentWorkflow.execute cfg steps input true cut).result.success = false ∧
        (AgentWorkflow.execute cfg steps input true cut).result.error.isSome = true) ∧
      (∀ e, (runSteps cfg.onError steps ⟨input, []⟩).err = some e →
        (AgentWorkflow.execute cfg steps input false cut).result.success = false ∧
        (AgentWorkflow.execute cfg steps input false cut).result.error = some e)) := by
  constructor
  · intro ι β init input run retry race
    refine ⟨?_, ?_, ?_, ?_⟩
    · cases input with
      | none => cases init <;> exact ⟨_, rfl⟩
      | some x =>
        cases race with
        | timer => cases init <;> exact ⟨_, rfl⟩
        | work =>
          rcases h : (executeWithRetry run retry).result with e | v
          · rw [executeBase_nil_work_err init x run retry e h]
            exact ⟨_, rfl⟩
          · rw [executeBase_nil_work_ok init x run retry v h]
            exact ⟨_, rfl⟩
    · intro h
      subst h
      cases init <;> exact agentCatch_nil_isFailure _ _ _
    · intro h
      subst h
      cases input <;> cases init <;> exact agentCatch_nil_isFailure _ _ _
    · intro hall
      cases input with
      | none => cases init <;> exact agentCatch_nil_isFailure _ _ _
      | some x =>
        cases race with
        | timer => cases init <;> exact agentCatch_nil_isFailure _ _ _
        | work =>
          obtain ⟨e2, he2⟩ :=
            retryGo_allFail_error run retry hall retry.maxAttempts 1 none
          rw [executeBase_nil_work_err init x run retry e2 he2]
          exact agentCatch_nil_isFailure _ _ _
  · intro α cfg steps input cut
    constructor
    · exact ⟨rfl, rfl⟩
    · intro e he
      constructor <;> simp [AgentWorkflow.execute, he]

/-- Shared concrete fixtures for witnesses. -/
def rcfg3 : RetryConfig := ⟨3, 100, some .exponential, none⟩

def runAllFail : Nat → Except JsError Int := fun _ => .error (.plain "boom")

def runThird : Nat → Except JsError Int :=
  fun k => if k < 3 then .error (.plain "fail") else .ok 7

def failStep : WStep Int :=
  { name := "f1", handler := fun _ => .error (.plain "boom"),
    condition := none, onError := none }

def okStep : WStep Int :=
  { name := "ok1", handler := fun _ => .ok (some 10),
    condition := none, onError := none }

def okStep2 : WStep Int :=
  { name := "ok2", handler := fun _ => .ok (some 20),
    condition := none, onError := none }

def wcfgStop : WorkflowConfig := mkWorkflowConfig ⟨"wf", none, none⟩

def wcfgCont : WorkflowConfig := ⟨"wf", 300000, .cont⟩

theorem C1_witness :
    isFailureOutcome (BaseAgent.execute false [] (none : Option Int) runAllFail rcfg3 .work).1 ∧
    isFailureOutcome (BaseAgent.execute false [] (some (1 : Int)) runAllFail rcfg3 .timer).1 ∧
    isFailureOutcome (BaseAgent.execute false [] (some (1 : Int)) runAllFail rcfg3 .work).1 ∧
    (AgentWorkflow.execute wcfgStop [failStep] (0 : Int) false 0).result.success = false ∧
    (AgentWorkflow.execute wcfgStop [failStep] (0 : Int) false 0).result.error =
      some (.plain "boom") := by
  refine ⟨?_, ?_, ?_, ?_⟩
  · exact (C1_execute_never_raises.1 Int Int false none runAllFail rcfg3 .work).2.1 rfl
  · exact (C1_execute_never_raises.1 Int Int false (some 1) runAllFail rcfg3 .timer).2.2.1 rfl
  · exact (C1_execute_never_raises.1 Int Int false (some 1) runAllFail rcfg3 .work).2.2.2
      (fun k => ⟨.plain "boom", rfl⟩)
  · exact (C1_execute_never_raises.2 Int wcfgStop [failStep] 0 0).2 (.plain "boom") (by decide)

/-- A listener that always throws. -/
def badListener : Listener := fun _ => .error (.plain "listener exploded")

/-- C2 counterexample: with one registered listener that throws, a
`BaseAgent.execute` call does not complete with its result — the listener's
exception propagates out of the engine (here already from the `agent:start`
emission during lazy initialization), so the exception is not caught and it
does abort the run. -/
theorem C2_counterexample :
    (BaseAgent.execute false [badListener] (some (1 : Int)) (fun _ => .ok (0 : Int))
        ⟨3, 1000, some .exponential, none⟩ .work).1 =
      .error (.plain "listener exploded") := rfl

/-- C2 amended: the engine does not catch listener exceptions — `emitEvent`
delegates to eventemitter3's `emit`, which installs no try/catch — so a
throwing listener aborts event delivery and its exception escapes `execute`
(here: thrown while `agent:start` is emitted by the lazy initialization, with
the work function never invoked). -/
theorem C2_amended_listener_exceptions_propagate :
    ∀ (ι β : Type) (e : JsError) (input : Option ι) (run : Nat → Except JsError β)
      (retry : RetryConfig) (race : Race),
      BaseAgent.execute false [fun _ => .error e] input run retry race =
        (.error e, [.agentStart], 0) := by
  intro ι β e input run retry race
  rfl

/-- C6: a `null`/`undefined` input fails validation before any work starts:
`execute` returns `success: false` with the `INVALID_INPUT` typed error, the
work function is never invoked (ghost call count 0, hence no retry attempt),
and the outcome does not depend on the timeout race at all. -/
theorem C6_invalid_input_short_circuits :
    ∀ (ι β : Type) (init : Bool) (run : Nat → Except JsError β) (retry : RetryConfig)
      (race : Race),
      BaseAgent.execute init [] (none : Option ι) run retry race =
        (.ok ⟨false, none, some ⟨"Input cannot be null or undefined", "INVALID_INPUT"⟩⟩,
          (if init then [] else [.agentStart]) ++ [.agentError], 0) ∧
      (∀ race2 : Race, BaseAgent.execute init [] (none : Option ι) run retry race2 =
        BaseAgent.execute init [] (none : Option ι) run retry race) := by
  intro ι β init run retry race
  constructor
  · cases init <;> rfl
  · intro race2
    cases init <;> rfl

/-- C4 counterexample: with `backoff: 'exponential'`, `delay: 5` and
`maxDelay: 0` — a set `maxDelay` — the code computes 5 for attempt 1 (because
`retry.maxDelay || delay` treats the set value 0 as falsy), while the
claimed formula `min(delay * 2^(k-1), maxDelay)` gives 0. -/
theorem C4_counterexample :
    calculateRetryDelay 1 ⟨3, 5, some .exponential, some 0⟩ = 5 ∧
    min ((5 : Nat) * 2 ^ (1 - 1)) 0 = 0 ∧ (5 : Nat) ≠ 0 := by
  decide

/-- C4 amended: for attempt k ≥ 1, the exponential-backoff delay is
`min(delay * 2^(k-1), maxDelay)` when `maxDelay` is set to a nonzero value,
and `delay * 2^(k-1)` when `maxDelay` is unset or set to 0 (JavaScript `||`
treats 0 as unset); linear backoff always yields the constant `delay`. -/
theorem C4_amended_backoff_delay (retry : RetryConfig) (k : Nat) (hk : 1 ≤ k) :
    (retry.backoff = some .exponential →
      (∀ m, retry.maxDelay = some m → m ≠ 0 →
        calculateRetryDelay k retry = min (retry.delay * 2 ^ (k - 1)) m) ∧
      (retry.maxDelay = none ∨ retry.maxDelay = some 0 →
        calculateRetryDelay k retry = retry.delay * 2 ^ (k - 1))) ∧
    (retry.backoff = some .linear → calculateRetryDelay k retry = retry.delay) := by
  constructor
  · intro hexp
    constructor
    · intro m hm hm0
      simp [calculateRetryDelay, hexp, hm, jsOrNat, hm0]
    · intro hcase
      rcases hcase with hnone | hzero
      · simp [calculateRetryDelay, hexp, hnone, jsOrNat]
      · simp [calculateRetryDelay, hexp, hzero, jsOrNat]
  · intro hlin
    simp [calculateRetryDelay, hlin]

theorem C4_amended_backoff_delay_witness :
    calculateRetryDelay 2 ⟨3, 10, some .exponential, some 7⟩ = min (10 * 2 ^ (2 - 1)) 7 ∧
    calculateRetryDelay 4 ⟨3, 10, some .exponential, none⟩ = 10 * 2 ^ (4 - 1) ∧
    calculateRetryDelay 2 ⟨3, 10, some .exponential, some 0⟩ = 10 * 2 ^ (2 - 1) ∧
    calculateRetryDelay 2 ⟨3, 10, some .linear, none⟩ = 10 := by
  refine ⟨?_, ?_, ?_, ?_⟩
  · exact ((C4_amended_backoff_delay ⟨3, 10, some .exponential, some 7⟩ 2 (by decide)).1
      rfl).1 7 rfl (by decide)
  · exact ((C4_amended_backoff_delay ⟨3, 10, some .exponential, none⟩ 4 (by decide)).1
      rfl).2 (Or.inl rfl)
  · exact ((C4_amended_backoff_delay ⟨3, 10, some .exponential, some 0⟩ 2 (by decide)).1
      rfl).2 (Or.inr rfl)
  · exact (C4_amended_backoff_delay ⟨3, 10, some .linear, none⟩ 2 (by decide)).2 rfl

/-- C5: with `maxAttempts ≥ 1`, the retry loop invokes the work function
exactly `maxAttempts` times when every attempt fails — and then settles on
the last attempt's error — and exactly `k` times when attempt `k` is the
first success, never more. -/
theorem C5_retry_invocation_counts (run : Nat → Except JsError β) (retry : RetryConfig)
    (hmax : 1 ≤ retry.maxAttempts) :
    ((∀ k, 1 ≤ k → k ≤ retry.maxAttempts → ∃ e, run k = .error e) →
      (executeWithRetry run retry).calls = retry.maxAttempts ∧
      ∀ e, run retry.maxAttempts = .error e →
        (executeWithRetry run retry).result = .error e) ∧
    (∀ k v, 1 ≤ k → k ≤ retry.maxAttempts → run k = .ok v →
      (∀ j, 1 ≤ j → j < k → ∃ e, run j = .error e) →
      (executeWithRetry run retry).calls = k ∧
      (executeWithRetry run retry).result = .ok v) := by
  constructor
  · intro hall
    have h := retryGo_allFail_spec run retry retry.maxAttempts hmax 1 none
      (fun k hk1 hk2 => hall k hk1 (by omega))
    refine ⟨h.1, ?_⟩
    intro e he
    refine h.2 e ?_
    have hidx : 1 + retry.maxAttempts - 1 = retry.maxAttempts := by omega
    rw [hidx]
    exact he
  · intro k v hk1 hk2 hok hprev
    have h := retryGo_firstSuccess_spec run retry retry.maxAttempts 1 none k v hk1
      (by omega) hok (fun j hj1 hj2 => hprev j hj1 hj2)
    exact ⟨by rw [executeWithRetry, h.1]; omega, h.2⟩

theorem C5_retry_invocation_counts_witness :
    (executeWithRetry runAllFail rcfg3).calls = 3 ∧
    (executeWithRetry runAllFail rcfg3).result = .error (.plain "boom") ∧
    (executeWithRetry runThird rcfg3).calls = 3 ∧
    (executeWithRetry runThird rcfg3).result = .ok 7 := by
  refine ⟨?_, ?_, ?_, ?_⟩
  · exact ((C5_retry_invocation_counts runAllFail rcfg3 (by decide)).1
      (fun k h1 h2 => ⟨.plain "boom", rfl⟩)).1
  · exact ((C5_retry_invocation_counts runAllFail rcfg3 (by decide)).1
      (fun k h1 h2 => ⟨.plain "boom", rfl⟩)).2 (.plain "boom") rfl
  · exact ((C5_retry_invocation_counts runThird rcfg3 (by decide)).2 3 7 (by decide)
      (by decide) rfl
      (fun j h1 h2 => ⟨.plain "fail", by simp [runThird]; omega⟩)).1
  · exact ((C5_retry_invocation_counts runThird rcfg3 (by decide)).2 3 7 (by decide)
      (by decide) rfl
      (fun j h1 h2 => ⟨.plain "fail", by simp [runThird]; omega⟩)).2

/-- A conditional step whose condition is false for every context. -/
def skipStep : WStep Int :=
  { name := "s1", handler := fun _ => .ok (some 42),
    condition := some (fun _ => .ok false), onError := none }

/-- C3 counterexample: a one-step workflow whose condition evaluates false.
The skip is recorded exactly as claimed (`success: true`, `data: null`,
`context.data` untouched), but no `step:complete` event is emitted for the
skipped step — the source returns from `executeStep` before reaching the
`step:complete` emission — refuting the claim's final conjunct. -/
theorem C3_counterexample :
    (AgentWorkflow.execute wcfgStop [skipStep] (0 : Int) false 0).result.steps =
        [⟨"s1", true, none, none⟩] ∧
    (AgentWorkflow.execute wcfgStop [skipStep] (0 : Int) false 0).result.data = some 0 ∧
    EventType.stepComplete ∉ (AgentWorkflow.execute wcfgStop [skipStep] (0 : Int) false 0).events ∧
    (AgentWorkflow.execute wcfgStop [skipStep] (0 : Int) false 0).events =
      [.workflowStart, .stepStart, .workflowComplete] := by
  decide

/-- C3 amended: when a step's condition evaluates false, the step is recorded
as a skip — a StepResult with `success: true` and `data: null`, the context
(in particular `context.data`) not mutated, the handler never invoked — and
only `step:start` is emitted: no `step:complete` event accompanies the
skip. -/
theorem C3_amended_skip_records (α : Type) (s : WStep α) (ctx : WCtx α)
    (c : WCtx α → Except JsError Bool) (hc : s.condition = some c)
    (hf : c ctx = .ok false) :
    executeStep s ctx = ⟨⟨s.name, true, none, none⟩, ctx, [.stepStart], false, []⟩ := by
  simp [executeStep, hc, hf]

theorem C3_amended_skip_records_witness :
    executeStep skipStep ⟨(5 : Int), []⟩ =
      ⟨⟨"s1", true, none, none⟩, ⟨5, []⟩, [.stepStart], false, []⟩ :=
  C3_amended_skip_records Int skipStep ⟨5, []⟩ (fun _ => .ok false) rfl rfl

/-- C7: under `onError: 'stop'` (which is the constructor default), when the
loop aborts on a failing step, `execute` returns `success: false` with that
step's error; the steps list is exactly the results produced so far — a row
of successes ended by the one failing result, no longer than the registered
list — every recorded handler invocation belongs to that evaluated slice (so
the handlers of the steps after the failing one never ran), and
`workflow:error` is emitted. -/
theorem C7_stop_aborts_remaining_steps (α : Type) (cfg : WorkflowConfig)
    (steps : List (WStep α)) (input : α) (cut : Nat) (e : JsError)
    (hstop : cfg.onError = .stop)
    (habort : (runSteps cfg.onError steps ⟨input, []⟩).err = some e) :
    (AgentWorkflow.execute cfg steps input false cut).result.success = false ∧
    (AgentWorkflow.execute cfg steps input false cut).result.error = some e ∧
    (AgentWorkflow.execute cfg steps input false cut).result.steps =
      (runSteps cfg.onError steps ⟨input, []⟩).results ∧
    (∃ pre fin, (AgentWorkflow.execute cfg steps input false cut).result.steps =
        pre ++ [fin] ∧
      (∀ r ∈ pre, r.success = true) ∧ fin.success = false ∧ fin.error = some e) ∧
    (AgentWorkflow.execute cfg steps input false cut).result.steps.length ≤ steps.length ∧
    (∀ nm ∈ (runSteps cfg.onError steps ⟨input, []⟩).invoked,
      nm ∈ (steps.take
        (AgentWorkflow.execute cfg steps input false cut).result.steps.length).map
        WStep.name) ∧
    EventType.workflowError ∈ (AgentWorkflow.execute cfg steps input false cut).events ∧
    (∀ nm2 : String, (mkWorkflowConfig ⟨nm2, none, none⟩).onError = .stop) := by
  have hres : (AgentWorkflow.execute cfg steps input false cut).result =
      ⟨false, none, (runSteps cfg.onError steps ⟨input, []⟩).results, some e⟩ := by
    simp [AgentWorkflow.execute, habort]
  have hev : (AgentWorkflow.execute cfg steps input false cut).events =
      .workflowStart :: (runSteps cfg.onError steps ⟨input, []⟩).events ++
        [.workflowError] := by
    simp [AgentWorkflow.execute, habort]
  rw [hstop] at habort
  obtain ⟨pre, fin, hsteps, hpre, hfin, herr, hlen⟩ :=
    runSteps_stop_spec steps ⟨input, []⟩ e habort
  refine ⟨by rw [hres], by rw [hres], by rw [hres], ?_, ?_, ?_, ?_, fun _ => rfl⟩
  · exact ⟨pre, fin, by rw [hres, hstop]; exact hsteps, hpre, hfin, herr⟩
  · rw [hres, hstop]
    exact hlen
  · intro nm hnm
    rw [hres]
    exact runSteps_invoked_names cfg.onError steps ⟨input, []⟩ nm hnm
  · rw [hev]
    simp

theorem C7_stop_aborts_remaining_steps_witness :
    (AgentWorkflow.execute wcfgStop [okStep, failStep, okStep2] (0 : Int) false 0).result.success
        = false ∧
    (AgentWorkflow.execute wcfgStop [okStep, failStep, okStep2] (0 : Int) false 0).result.error
        = some (.plain "boom") ∧
    (AgentWorkflow.execute wcfgStop [okStep, failStep, okStep2] (0 : Int) false 0).result.steps.length
        ≤ 3 ∧
    EventType.workflowError ∈
      (AgentWorkflow.execute wcfgStop [okStep, failStep, okStep2] (0 : Int) false 0).events := by
  have h := C7_stop_aborts_remaining_steps Int wcfgStop [okStep, failStep, okStep2] 0 0
    (.plain "boom") rfl (by decide)
  exact ⟨h.1, h.2.1, h.2.2.2.2.1, h.2.2.2.2.2.2.1⟩

/-- C8: for every workflow, input and race outcome, executing under
`onError: 'rollback'` produces the same `WorkflowResult` and the same event
sequence as executing under `onError: 'stop'`; the only difference is the
rollback warning in the console log, present exactly when the run
aborted. -/
theorem C8_rollback_behaves_like_stop (α : Type) (nm : String) (tmo : Nat)
    (steps : List (WStep α)) (input : α) (race : Bool) (cut : Nat) :
    (AgentWorkflow.execute ⟨nm, tmo, .rollback⟩ steps input race cut).result =
      (AgentWorkflow.execute ⟨nm, tmo, .stop⟩ steps input race cut).result ∧
    (AgentWorkflow.execute ⟨nm, tmo, .rollback⟩ steps input race cut).events =
      (AgentWorkflow.execute ⟨nm, tmo, .stop⟩ steps input race cut).events ∧
    (runSteps .rollback steps (⟨input, []⟩ : WCtx α)).logs =
      (runSteps .stop steps (⟨input, []⟩ : WCtx α)).logs ++
        (if (runSteps .rollback steps (⟨input, []⟩ : WCtx α)).err.isSome then rollbackLogs
          else []) := by
  obtain ⟨h1, h2, h3, h4, h5, h6⟩ := runSteps_rollback_stop_agree steps (⟨input, []⟩ : WCtx α)
  refine ⟨?_, ?_, h6⟩
  · cases race with
    | false =>
      rcases herr : (runSteps .rollback steps (⟨input, []⟩ : WCtx α)).err with _ | e
      · have herr2 : (runSteps .stop steps (⟨input, []⟩ : WCtx α)).err = none := by
          rw [← h4, herr]
        simp [AgentWorkflow.execute, herr, herr2, h1, h2]
      · have herr2 : (runSteps .stop steps (⟨input, []⟩ : WCtx α)).err = some e := by
          rw [← h4, herr]
        simp [AgentWorkflow.execute, herr, herr2, h1]
    | true =>
      simp [AgentWorkflow.execute, h1]
  · cases race with
    | false =>
      rcases herr : (runSteps .rollback steps (⟨input, []⟩ : WCtx α)).err with _ | e
      · have herr2 : (runSteps .stop steps (⟨input, []⟩ : WCtx α)).err = none := by
          rw [← h4, herr]
        simp [AgentWorkflow.execute, herr, herr2, h3]
      · have herr2 : (runSteps .stop steps (⟨input, []⟩ : WCtx α)).err = some e := by
          rw [← h4, herr]
        simp [AgentWorkflow.execute, herr, herr2, h3]
    | true =>
      simp [AgentWorkflow.execute, h3]

/-- C10: under `onError: 'continue'` with no top-level timeout, every
registered step is evaluated (one `StepResult` each), `execute` reports
`success: true` with no error and emits `workflow:complete` — even when some
of those `StepResult`s are failures — and the returned data is the loop
context's final `data`, which failing or skipped steps never move (only a
non-failing, non-skipped handler can have set it). -/
theorem C10_continue_completes (α : Type) (cfg : WorkflowConfig) (steps : List (WStep α))
    (input : α) (cut : Nat) (hcont : cfg.onError = .cont) :
    (AgentWorkflow.execute cfg steps input false cut).result.success = true ∧
    (AgentWorkflow.execute cfg steps input false cut).result.error = none ∧
    EventType.workflowComplete ∈ (AgentWorkflow.execute cfg steps input false cut).events ∧
    (AgentWorkflow.execute cfg steps input false cut).result.steps.length = steps.length ∧
    (AgentWorkflow.execute cfg steps input false cut).result.data =
      some (runSteps cfg.onError steps (⟨input, []⟩ : WCtx α)).ctx.data ∧
    (∀ (s : WStep α) (c : WCtx α),
      (executeStep s c).res.success = false ∨ (executeStep s c).invoked = false →
      (executeStep s c).ctx = c) := by
  obtain ⟨hnone, hlen⟩ := runSteps_cont_total steps (⟨input, []⟩ : WCtx α)
  have hnone2 : (runSteps cfg.onError steps (⟨input, []⟩ : WCtx α)).err = none := by
    rw [hcont]; exact hnone
  refine ⟨?_, ?_, ?_, ?_, ?_, fun s c h => executeStep_no_mutate s c h⟩
  · simp [AgentWorkflow.execute, hnone2]
  · simp [AgentWorkflow.execute, hnone2]
  · simp [AgentWorkflow.execute, hnone2]
  · simp [AgentWorkflow.execute, hcont, hnone, hlen]
  · simp [AgentWorkflow.execute, hnone2]

theorem C10_continue_completes_witness :
    (AgentWorkflow.execute wcfgCont [okStep, failStep, okStep2] (0 : Int) false 0).result.success
        = true ∧
    (AgentWorkflow.execute wcfgCont [okStep, failStep, okStep2] (0 : Int) false 0).result.steps.length
        = 3 ∧
    EventType.workflowComplete ∈
      (AgentWorkflow.execute wcfgCont [okStep, failStep, okStep2] (0 : Int) false 0).events ∧
    (AgentWorkflow.execute wcfgCont [okStep, failStep, okStep2] (0 : Int) false 0).result.steps.map
        StepRes.success = [true, false, true] ∧
    (AgentWorkflow.execute wcfgCont [okStep, failStep, okStep2] (0 : Int) false 0).result.data
        = some 20 := by
  have h := C10_continue_completes Int wcfgCont [okStep, failStep, okStep2] 0 0 rfl
  exact ⟨h.1, h.2.2.2.1, h.2.2.1, by decide, by decide⟩

/-- A work function that mutates the object reachable through
`context.data` — which is the caller's input object, since the context holds
the reference itself. -/
def mutRun : CtxS → Store → Except JsError Int × Store :=
  fun ctx st => (.ok 0, st.set ctx.dataRef 99)

/-- C9 counterexample: the context is built with `data: input` — no copy — so
a work function that mutates `context.data` in place mutates the caller's
input object: after a successful `execute` the input cell changed from 5 to
99, refuting both the "internal copy" mechanism and the "input unchanged
after the call" conclusion. -/
theorem C9_counterexample :
    (executeS (some 0) mutRun rcfg3 .work [5]).1.success = true ∧
    (executeS (some 0) mutRun rcfg3 .work [5]).2 = [99] ∧
    ([99] : Store) ≠ [5] := by
  decide

/-- C9 amended: the engine's own code never writes to the input object — if
the work function preserves the heap, `execute` preserves the heap — but it
takes no internal copy: the fresh ExecutionContext's `data` field holds the
caller's reference itself, so the input is unchanged after the call only if
the work function does not mutate `context.data`. -/
theorem C9_amended_engine_never_writes (input : Nat)
    (runS : CtxS → Store → Except JsError Int × Store) (retry : RetryConfig)
    (race : Race) (st : Store) (hpres : ∀ c s2, (runS c s2).2 = s2) :
    (executeS (some input) runS retry race st).2 = st ∧
    (buildCtxS input).dataRef = input ∧
    (∀ st2 : Store, (executeS none runS retry race st2).2 = st2) := by
  refine ⟨?_, rfl, fun st2 => rfl⟩
  have h := retryGoS_preserve runS hpres (buildCtxS input) retry.maxAttempts none st
  rcases hr : retryGoS runS (buildCtxS input) retry.maxAttempts none st with ⟨res, st2⟩
  have hst : st2 = st := by rw [← h, hr]
  cases race with
  | work => cases res <;> simp [executeS, hr, hst]
  | timer => simp [executeS, hr, hst]

def pureRun : CtxS → Store → Except JsError Int × Store := fun _ st => (.ok 1, st)

theorem C9_amended_engine_never_writes_witness :
    (executeS (some 0) pureRun rcfg3 .work [5]).2 = [5] :=
  (C9_amended_engine_never_writes 0 pureRun rcfg3 .work [5] (fun _ _ => rfl)).1
